import Mathlib

/-!
Verification of the `better-types` core: the Result algebra
(`src/helpers/result.ts`), the combinator pipeline `ResultPipe` and the
context-carrying pipeline `ContextPipe` with its `Context` accessor
(`src/helpers/pipe.ts`), and the tagged-value dispatcher `matchTag`
(`src/helpers/tag.ts`).

Modelling notes:
* TypeScript's `Result<T, E>` discriminated union (`_tag: "Ok" | "Error"`)
  becomes a two-constructor inductive type.
* The pipeline classes hold their wrapped `Result` (and, for `ContextPipe`,
  the raw context record) in read-only fields; they become structures, and
  each method becomes a function on the structure, translated branch by
  branch from the method body.
* TypeScript's union error type `E | F` produced by `flatMap` is a purely
  type-level device: the error value itself flows through unwrapped.  The
  embedding instantiates the union at `F = E`, which is value-faithful.
* `recover`'s return type `ResultPipe<T, never>` is modelled with the empty
  type standing for `never`.
* `unwrapOrThrow` throws `new Error(String(e))`; it is modelled as
  `Except String T`, with the stringification `String(·)` passed explicitly.
* A context record `C extends Record<string, any>` is modelled as a partial
  map `String → Option V` (reading an absent key gives `undefined`, i.e.
  `none`); the object spread `{...ctx, [key]: value}` is the pointwise
  function update.
-/

set_option autoImplicit false

namespace BetterTypes


/-- `Result<T, E>` from `src/helpers/result.ts`: a disjoint union of
`{_tag: "Ok", data}` and `{_tag: "Error", error}`. -/
inductive Result (T : Type) (E : Type) where
  | Ok (data : T)
  | Error (error : E)
  deriving Repr, DecidableEq

/-- `ok(data)` constructor from `result.ts`. -/
def ok {T : Type} {E : Type} (data : T) : Result T E := .Ok data

/-- `error(err)` constructor from `result.ts`. -/
def error {T : Type} {E : Type} (e : E) : Result T E := .Error e

/-- `isOk` predicate from `result.ts`. -/
def isOk {T : Type} {E : Type} : Result T E → Bool
  | .Ok _ => true
  | .Error _ => false

/-- `isError` predicate from `result.ts`. -/
def isError {T : Type} {E : Type} : Result T E → Bool
  | .Ok _ => false
  | .Error _ => true

/-- `ResultPipe<T, E>` from `src/helpers/pipe.ts`: a wrapper holding the
read-only field `result`. -/
structure ResultPipe (T : Type) (E : Type) where
  result : Result T E
  deriving Repr, DecidableEq

namespace ResultPipe

variable {T : Type} {E : Type} {R : Type}

/-- `ResultPipe.map`: on `Ok` rebuild with `ok(fn(data))`, on `Error`
rebuild with `error(this.result.error)`. -/
def map (p : ResultPipe T E) (fn : T → R) : ResultPipe R E :=
  match p.result with
  | .Ok d => ⟨ok (fn d)⟩
  | .Error e => ⟨error e⟩

/-- `ResultPipe.flatMap`: on `Ok` the wrapped result becomes `fn(data)`
wholesale, on `Error` rebuild with `error(this.result.error)`.  (TS error
type `E | F` instantiated at `F = E`.) -/
def flatMap (p : ResultPipe T E) (fn : T → Result R E) : ResultPipe R E :=
  match p.result with
  | .Ok d => ⟨fn d⟩
  | .Error e => ⟨error e⟩

/-- `ResultPipe.mapToResult`: identical body to `map` — wraps `fn(data)`
in `ok` on the success branch. -/
def mapToResult (p : ResultPipe T E) (fn : T → R) : ResultPipe R E :=
  match p.result with
  | .Ok d => ⟨ok (fn d)⟩
  | .Error e => ⟨error e⟩

/-- `ResultPipe.mapError`: transforms only the error branch. -/
def mapError {F : Type} (p : ResultPipe T E) (fn : E → F) : ResultPipe T F :=
  match p.result with
  | .Ok d => ⟨ok d⟩
  | .Error e => ⟨error (fn e)⟩

/-- `ResultPipe.tap`: invokes `fn(data)` for its side effect when `Ok`,
then `return this` — the receiver itself, in both branches. -/
def tap (p : ResultPipe T E) (fn : T → Unit) : ResultPipe T E :=
  match p.result with
  | .Ok d =>
    let _u := fn d
    p
  | .Error _ => p

/-- `ResultPipe.tapError`: invokes `fn(error)` when `Error`, then
`return this`. -/
def tapError (p : ResultPipe T E) (fn : E → Unit) : ResultPipe T E :=
  match p.result with
  | .Ok _ => p
  | .Error e =>
    let _u := fn e
    p

/-- `ResultPipe.filter`: on `Ok`, keep the data if the predicate holds,
else `error(errorValue)`; on `Error`, rebuild with the same error. -/
def filter (p : ResultPipe T E) (predicate : T → Bool) (errorValue : E) :
    ResultPipe T E :=
  match p.result with
  | .Ok d => ⟨if predicate d then ok d else error errorValue⟩
  | .Error e => ⟨error e⟩

/-- `ResultPipe.recover`: on `Error`, `ok(fn(error))`; on `Ok`, rebuild
with the same data.  Return error type is TS `never`, modelled as `Empty`. -/
def recover (p : ResultPipe T E) (fn : E → T) : ResultPipe T Empty :=
  match p.result with
  | .Ok d => ⟨ok d⟩
  | .Error e => ⟨ok (fn e)⟩

/-- `ResultPipe.unwrap`: returns the wrapped result. -/
def unwrap (p : ResultPipe T E) : Result T E := p.result

/-- `ResultPipe.unwrapOr`: the `Ok` data, or the supplied default. -/
def unwrapOr (p : ResultPipe T E) (defaultValue : T) : T :=
  match p.result with
  | .Ok d => d
  | .Error _ => defaultValue

/-- `ResultPipe.unwrapOrThrow`: the `Ok` data, or
`throw new Error(String(error))`.  The throw is modelled as
`Except.error` carrying the stringified error value; `strOf` stands for
JavaScript's `String(·)` conversion. -/
def unwrapOrThrow (p : ResultPipe T E) (strOf : E → String) : Except String T :=
  match p.result with
  | .Ok d => .ok d
  | .Error e => .error (strOf e)

end ResultPipe

/-- `pipeResult` from `pipe.ts`: wraps a result in a fresh pipe. -/
def pipeResult {T : Type} {E : Type} (result : Result T E) : ResultPipe T E :=
  ⟨result⟩

/-- The `Context` helper class from `pipe.ts`: wraps a context record
(`private context: C`).  The constructor's defensive copy `{...context}`
is the identity on the pure map model. -/
structure Context (V : Type) where
  context : String → Option V

/-- `Context.set`: returns a new `Context` built from the object spread
`{...this.context, [key]: value}`, i.e. the pointwise update. -/
def Context.set {V : Type} (c : Context V) (k : String) (v : V) : Context V :=
  ⟨fun k' => if k' = k then some v else c.context k'⟩

/-- `Context.get`: reads `this.context[key]`; an absent key gives
`undefined`, i.e. `none`. -/
def Context.get {V : Type} (c : Context V) (k : String) : Option V :=
  c.context k

/-- `Context.getContext`: returns the raw context record. -/
def Context.getContext {V : Type} (c : Context V) : String → Option V :=
  c.context

/-- `ContextPipe<T, E, C>` from `pipe.ts`: read-only fields `result` and
`context` (the raw record, modelled as a partial map with values in `V`). -/
structure ContextPipe (T E V : Type) where
  result : Result T E
  context : String → Option V

namespace ContextPipe

variable {T E V R : Type}

/-- `ContextPipe.setContext`: on `Ok`, call `fn(data, new Context(this.context))`
and carry `newContext.getContext()`; on `Error`, rebuild with
`error(this.result.error)` and the unchanged context. -/
def setContext (p : ContextPipe T E V) (fn : T → Context V → Context V) :
    ContextPipe T E V :=
  match p.result with
  | .Ok d => ⟨.Ok d, (fn d ⟨p.context⟩).getContext⟩
  | .Error e => ⟨error e, p.context⟩

/-- `ContextPipe.map`: on `Ok`, wrap `fn(data, new Context(this.context))`
in `ok` and keep `this.context`; on `Error`, pass the error through with
the unchanged context. -/
def map (p : ContextPipe T E V) (fn : T → Context V → R) : ContextPipe R E V :=
  match p.result with
  | .Ok d => ⟨ok (fn d ⟨p.context⟩), p.context⟩
  | .Error e => ⟨error e, p.context⟩

/-- `ContextPipe.flatMap`: on `Ok`, the wrapped result becomes
`fn(data, new Context(this.context))` wholesale, the context is kept;
on `Error`, pass through.  (TS error type `E | F` at `F = E`.) -/
def flatMap (p : ContextPipe T E V) (fn : T → Context V → Result R E) :
    ContextPipe R E V :=
  match p.result with
  | .Ok d => ⟨fn d ⟨p.context⟩, p.context⟩
  | .Error e => ⟨error e, p.context⟩

/-- `ContextPipe.mapToResult`: identical body to `ContextPipe.map`. -/
def mapToResult (p : ContextPipe T E V) (fn : T → Context V → R) :
    ContextPipe R E V :=
  match p.result with
  | .Ok d => ⟨ok (fn d ⟨p.context⟩), p.context⟩
  | .Error e => ⟨error e, p.context⟩

/-- `ContextPipe.unwrap`: returns the wrapped result. -/
def unwrap (p : ContextPipe T E V) : Result T E := p.result

/-- `ContextPipe.getContext`: returns the carried context record. -/
def getContext (p : ContextPipe T E V) : String → Option V := p.context

end ContextPipe

/-- `pipeResultWithContext` from `pipe.ts`: wraps a result in a context
pipe whose context defaults to the empty record `{}`. -/
def pipeResultWithContext {T E V : Type} (result : Result T E) :
    ContextPipe T E V :=
  ⟨result, fun _ => none⟩

/-- `pipeWithContext` from `pipe.ts`: same runtime behaviour as
`pipeResultWithContext` (the overloads only refine TS type inference). -/
def pipeWithContext {T E V : Type} (result : Result T E) :
    ContextPipe T E V :=
  ⟨result, fun _ => none⟩

/-- One success-path link of a combinator-pipeline chain over a fixed
value type `T` and error type `E`: the four operations the short-circuit
rule covers on `ResultPipe`. -/
inductive Step (T E : Type) where
  | map (fn : T → T)
  | flatMap (fn : T → Result T E)
  | filter (predicate : T → Bool) (errorValue : E)
  | tap (fn : T → Unit)

/-- Applies one chain link via the corresponding `ResultPipe` method. -/
def applyStep {T E : Type} (p : ResultPipe T E) : Step T E → ResultPipe T E
  | .map fn => p.map fn
  | .flatMap fn => p.flatMap fn
  | .filter predicate errorValue => p.filter predicate errorValue
  | .tap fn => p.tap fn

/-- The arguments on which a link's success-path function is invoked:
each of the four method bodies calls its function exactly once, on
`this.result.data`, inside the `Ok` branch, and not at all on the
`Error` branch. -/
def okCalls {T E : Type} (p : ResultPipe T E) : List T :=
  match p.result with
  | .Ok d => [d]
  | .Error _ => []

/-- Runs a chain of links, returning the final pipe together with the
concatenated invocation trace of every link's success-path function. -/
def runSteps {T E : Type} (p : ResultPipe T E) :
    List (Step T E) → ResultPipe T E × List T
  | [] => (p, [])
  | s :: rest =>
    let next := runSteps (applyStep p s) rest
    (next.1, okCalls p ++ next.2)

/-- One link of a context-carrying chain: the success-path operations of
`ContextPipe` (`map`, `flatMap`, `mapToResult`, `setContext`). -/
inductive CStep (T E V : Type) where
  | map (fn : T → Context V → T)
  | flatMap (fn : T → Context V → Result T E)
  | mapToResult (fn : T → Context V → T)
  | setContext (fn : T → Context V → Context V)

/-- Applies one context-chain link via the corresponding `ContextPipe`
method. -/
def applyCStep {T E V : Type} (p : ContextPipe T E V) :
    CStep T E V → ContextPipe T E V
  | .map fn => p.map fn
  | .flatMap fn => p.flatMap fn
  | .mapToResult fn => p.mapToResult fn
  | .setContext fn => p.setContext fn

/-- The context accessors passed to a link's function: each `ContextPipe`
method calls its function exactly once, on
`(this.result.data, new Context(this.context))`, in the `Ok` branch only. -/
def okCtxCalls {T E V : Type} (p : ContextPipe T E V) : List (Context V) :=
  match p.result with
  | .Ok _ => [⟨p.context⟩]
  | .Error _ => []

/-- Runs a context chain, returning the final pipe and the trace of
context accessors passed to the invoked functions. -/
def runCSteps {T E V : Type} (p : ContextPipe T E V) :
    List (CStep T E V) → ContextPipe T E V × List (Context V)
  | [] => (p, [])
  | s :: rest =>
    let next := runCSteps (applyCStep p s) rest
    (next.1, okCtxCalls p ++ next.2)

/-- A link preserves context key `k` when, if it is a `setContext` link,
the context it builds agrees with its input context at `k` — true in
particular of any link whose `set` calls all target other keys. -/
def stepPreservesKey {T E V : Type} (k : String) : CStep T E V → Prop
  | .setContext fn => ∀ (d : T) (c : Context V), (fn d c).get k = c.get k
  | _ => True

/-- Every context accessor in the trace reads `some v` at key `k`. -/
def ctxAllHaveKey {V : Type} (k : String) (v : V) (l : List (Context V)) : Prop :=
  ∀ c ∈ l, c.get k = some v

/-- Concrete combinator chain used to exercise the short-circuit theorem. -/
def sampleSteps : List (Step Nat Nat) :=
  [.map (fun x => x + 1), .tap (fun _ => ()),
   .filter (fun _ => true) 7, .flatMap (fun x => .Ok x)]

/-- Concrete context chain used to exercise the short-circuit theorem. -/
def sampleCSteps : List (CStep Nat Nat Nat) :=
  [.map (fun x _ => x + 1), .setContext (fun d c => c.set "k" d),
   .flatMap (fun x _ => .Ok x), .mapToResult (fun x _ => x)]

/-- Concrete context chain used to exercise the context-persistence
theorem: it reads key `"a"`, sets the unrelated key `"b"`, and chains a
successful `flatMap`. -/
def persistSteps : List (CStep Nat Nat Nat) :=
  [.map (fun x c => x + (Context.get c "a").getD 0),
   .setContext (fun x c => c.set "b" x),
   .flatMap (fun x _ => .Ok x)]

/-- `Tag<T, V>` from `src/helpers/tag.ts`: a discriminant `_tag` paired
with a payload `value`.  (The conditional payload type
`[V] extends [never] ? T : V` resolves to `V` when a payload type is
given, and to the tag type itself otherwise.) -/
structure Tag (K V : Type) where
  _tag : K
  value : V
  deriving Repr, DecidableEq

/-- `matchTag` from `tag.ts`: looks up `cases[tagged._tag]` and invokes
that handler once with the full tagged value.  A cases object covering
every discriminant of the closed set `K` is a total function
`K → Tag K V → R`. -/
def matchTag {K V R : Type} (tagged : Tag K V) (handlers : K → Tag K V → R) : R :=
  handlers tagged._tag tagged

/-- `createTagged(tag)` overload from `tag.ts`: with the payload omitted,
the tag label itself serves as the value. -/
def createTagged {K : Type} (tag : K) : Tag K K :=
  ⟨tag, tag⟩

/-- `createTagged(tag, value)` overload from `tag.ts`: explicit payload. -/
def createTaggedWith {K V : Type} (tag : K) (value : V) : Tag K V :=
  ⟨tag, value⟩

/-- Allocation-aware model of `ResultPipe` for the instance-identity
claim: each object also carries an identity `pid`.  A method body that
executes `new ResultPipe(...)` hands back an object with a fresh
identity, distinct from the receiver's (modelled as `pid + 1`), while
`tap` and `tapError` execute `return this` and hand back the receiver
itself, identity included.  The wrapped result follows the same branches
as the corresponding `ResultPipe` method. -/
structure RefPipe (T E : Type) where
  pid : Nat
  result : Result T E
  deriving Repr, DecidableEq

namespace RefPipe

variable {T E R F : Type}

/-- Identity-tracking `map`: both branches allocate (`new ResultPipe`). -/
def map (p : RefPipe T E) (fn : T → R) : RefPipe R E :=
  match p.result with
  | .Ok d => ⟨p.pid + 1, ok (fn d)⟩
  | .Error e => ⟨p.pid + 1, error e⟩

/-- Identity-tracking `flatMap`: both branches allocate. -/
def flatMap (p : RefPipe T E) (fn : T → Result R E) : RefPipe R E :=
  match p.result with
  | .Ok d => ⟨p.pid + 1, fn d⟩
  | .Error e => ⟨p.pid + 1, error e⟩

/-- Identity-tracking `mapToResult`: both branches allocate. -/
def mapToResult (p : RefPipe T E) (fn : T → R) : RefPipe R E :=
  match p.result with
  | .Ok d => ⟨p.pid + 1, ok (fn d)⟩
  | .Error e => ⟨p.pid + 1, error e⟩

/-- Identity-tracking `mapError`: both branches allocate. -/
def mapError (p : RefPipe T E) (fn : E → F) : RefPipe T F :=
  match p.result with
  | .Ok d => ⟨p.pid + 1, ok d⟩
  | .Error e => ⟨p.pid + 1, error (fn e)⟩

/-- Identity-tracking `tap`: invokes `fn(data)` when `Ok`, then
`return this` — the receiver, in both branches. -/
def tap (p : RefPipe T E) (fn : T → Unit) : RefPipe T E :=
  match p.result with
  | .Ok d =>
    let _u := fn d
    p
  | .Error _ => p

/-- Identity-tracking `tapError`: invokes `fn(error)` when `Error`, then
`return this`. -/
def tapError (p : RefPipe T E) (fn : E → Unit) : RefPipe T E :=
  match p.result with
  | .Ok _ => p
  | .Error e =>
    let _u := fn e
    p

/-- Identity-tracking `filter`: both branches allocate. -/
def filter (p : RefPipe T E) (predicate : T → Bool) (errorValue : E) :
    RefPipe T E :=
  match p.result with
  | .Ok d => ⟨p.pid + 1, if predicate d then ok d else error errorValue⟩
  | .Error e => ⟨p.pid + 1, error e⟩

/-- Identity-tracking `recover`: both branches allocate. -/
def recover (p : RefPipe T E) (fn : E → T) : RefPipe T Empty :=
  match p.result with
  | .Ok d => ⟨p.pid + 1, ok d⟩
  | .Error e => ⟨p.pid + 1, ok (fn e)⟩

end RefPipe

end BetterTypes

namespace BetterTypes

/-- C4: `filter(pred, e)` on a pipe wrapping `Ok v` yields `Ok v` when
`pred v` and exactly `Error e` otherwise; on a pipe wrapping an error it
passes that error value through unchanged. -/
theorem filter_spec {T : Type} {E : Type} (v : T) (pred : T → Bool) (e e0 : E) :
    ((⟨.Ok v⟩ : ResultPipe T E).filter pred e).result
        = (if pred v then .Ok v else .Error e) ∧
      ((⟨.Error e0⟩ : ResultPipe T E).filter pred e).result = .Error e0 := by
  refine ⟨?_, rfl⟩
  by_cases h : pred v <;> simp [ResultPipe.filter, ok, error, h]

/-- C5: `recover f` turns `Error e` into `Ok (f e)`, leaves `Ok v`
unchanged, and its output (typed over the empty error type, TS `never`)
is never in the error state. -/
theorem recover_spec {T : Type} {E : Type} (v : T) (e : E) (f : E → T) :
    ((⟨.Error e⟩ : ResultPipe T E).recover f).result = .Ok (f e) ∧
      ((⟨.Ok v⟩ : ResultPipe T E).recover f).result = .Ok v ∧
      ∀ (p : ResultPipe T E) (g : E → T), isError (p.recover g).result = false := by
  refine ⟨rfl, rfl, fun p g => ?_⟩
  cases hp : p.result <;> simp [ResultPipe.recover, hp, ok, isError]

/-- C6: map fusion — `p.map f |>.map g` and `p.map (g ∘ f)` unwrap to the
same result, in the `Ok` and the `Error` case alike. -/
theorem map_fusion {T : Type} {E : Type} {R S : Type}
    (p : ResultPipe T E) (f : T → R) (g : R → S) :
    ((p.map f).map g).unwrap = (p.map (fun x => g (f x))).unwrap := by
  cases hp : p.result <;> simp [ResultPipe.map, ResultPipe.unwrap, hp, ok, error]

/-- C8: `unwrapOrThrow` returns the `Ok` data, and on `Error e` escapes
with the stringified error value `String(e)` (the thrown
`new Error(String(e))`, modelled as the exceptional branch).  Every
other operation of the pipe is a total function in this development, so
this is the only operation with an exceptional outcome. -/
theorem unwrapOrThrow_spec {T : Type} {E : Type} (v : T) (e : E)
    (strOf : E → String) :
    ((⟨.Ok v⟩ : ResultPipe T E).unwrapOrThrow strOf) = .ok v ∧
      ((⟨.Error e⟩ : ResultPipe T E).unwrapOrThrow strOf) = .error (strOf e) :=
  ⟨rfl, rfl⟩

/-- C9: the undocumented `mapToResult` is extensionally `map`: on the
combinator pipe the unwrapped results agree, and on the context pipe the
unwrapped results and the carried contexts agree, for every input. -/
theorem mapToResult_eq_map {T E V R : Type}
    (p : ResultPipe T E) (f : T → R)
    (cp : ContextPipe T E V) (g : T → Context V → R) :
    (p.mapToResult f).unwrap = (p.map f).unwrap ∧
      (cp.mapToResult g).unwrap = (cp.map g).unwrap ∧
      (cp.mapToResult g).context = (cp.map g).context := by
  refine ⟨?_, ?_, ?_⟩ <;>
    first
      | cases hp : p.result <;>
          simp [ResultPipe.mapToResult, ResultPipe.map, ResultPipe.unwrap, hp]
      | cases hcp : cp.result <;>
          simp [ContextPipe.mapToResult, ContextPipe.map, ContextPipe.unwrap, hcp]

/-- C10: on the context pipe, `map`, `flatMap` and `mapToResult` return a
pipe carrying the receiver's context verbatim, whatever the supplied
function does with its context accessor (context built inside the
function is discarded); `setContext`, by contrast, can change the carried
context, witnessed on a concrete pipe. -/
theorem context_frame {T E V R : Type}
    (cp : ContextPipe T E V) (f : T → Context V → R)
    (g : T → Context V → Result R E) (h : T → Context V → R) :
    (cp.map f).context = cp.context ∧
      (cp.flatMap g).context = cp.context ∧
      (cp.mapToResult h).context = cp.context ∧
      (((⟨.Ok 1, fun _ => none⟩ : ContextPipe Nat Nat Nat).setContext
          (fun d c => c.set "k" d)).context "k"
        ≠ (⟨.Ok 1, fun _ => none⟩ : ContextPipe Nat Nat Nat).context "k") := by
  refine ⟨?_, ?_, ?_, ?_⟩
  · cases hcp : cp.result <;> simp [ContextPipe.map, hcp]
  · cases hcp : cp.result <;> simp [ContextPipe.flatMap, hcp]
  · cases hcp : cp.result <;> simp [ContextPipe.mapToResult, hcp]
  · simp [ContextPipe.setContext, Context.set, Context.getContext]

/-- From a pipe wrapping `Error e`, every single combinator link returns
the pipe wrapping `Error e` again. -/
theorem applyStep_error {T E : Type} (e : E) (s : Step T E) :
    applyStep (⟨.Error e⟩ : ResultPipe T E) s = ⟨.Error e⟩ := by
  cases s <;> rfl

/-- From a pipe wrapping `Error e`, a whole combinator chain returns the
pipe wrapping `Error e` and an empty invocation trace. -/
theorem runSteps_from_error {T E : Type} (e : E) (steps : List (Step T E)) :
    runSteps (⟨.Error e⟩ : ResultPipe T E) steps = (⟨.Error e⟩, []) := by
  induction steps with
  | nil => rfl
  | cons s rest ih => simp [runSteps, applyStep_error, ih, okCalls]

/-- From a context pipe wrapping `Error e`, every single context link
returns the same error and the unchanged context. -/
theorem applyCStep_error {T E V : Type} (e : E) (ctx : String → Option V)
    (s : CStep T E V) :
    applyCStep (⟨.Error e, ctx⟩ : ContextPipe T E V) s = ⟨.Error e, ctx⟩ := by
  cases s <;> rfl

/-- From a context pipe wrapping `Error e`, a whole context chain returns
the same error, the unchanged context, and an empty invocation trace. -/
theorem runCSteps_from_error {T E V : Type} (e : E) (ctx : String → Option V)
    (csteps : List (CStep T E V)) :
    runCSteps (⟨.Error e, ctx⟩ : ContextPipe T E V) csteps
      = (⟨.Error e, ctx⟩, []) := by
  induction csteps with
  | nil => rfl
  | cons s rest ih => simp [runCSteps, applyCStep_error, ih, okCtxCalls]

/-- C1: short-circuit — a pipe (combinator or context-carrying) wrapping
`Error e`, run through arbitrarily many chained `map`/`flatMap`/`filter`/
`tap` links (plus `mapToResult`/`setContext` on the context variant),
never invokes any supplied function (the invocation trace is empty) and
ends wrapping an `Error` whose error value is exactly `e`; the context
variant also keeps its context. -/
theorem short_circuit {T E V : Type}
    (p : ResultPipe T E) (cp : ContextPipe T E V) (e : E)
    (steps : List (Step T E)) (csteps : List (CStep T E V))
    (hp : p.result = .Error e) (hcp : cp.result = .Error e) :
    runSteps p steps = (⟨.Error e⟩, []) ∧
      runCSteps cp csteps = (⟨.Error e, cp.context⟩, []) := by
  obtain ⟨r⟩ := p
  obtain ⟨r2, ctx⟩ := cp
  simp only at hp hcp
  subst hp
  subst hcp
  exact ⟨runSteps_from_error e steps, runCSteps_from_error e ctx csteps⟩

/-- C1 witness: a concrete error pipe run through concrete four-link
chains ends in the same error with an empty invocation trace. -/
theorem short_circuit_witness :
    runSteps (⟨.Error 5⟩ : ResultPipe Nat Nat) sampleSteps = (⟨.Error 5⟩, []) ∧
      runCSteps (⟨.Error 5, fun _ => none⟩ : ContextPipe Nat Nat Nat) sampleCSteps
        = (⟨.Error 5, fun _ => none⟩, []) :=
  short_circuit ⟨.Error 5⟩ ⟨.Error 5, fun _ => none⟩ 5 sampleSteps sampleCSteps
    rfl rfl

/-- Any context accessor handed out by a pipe whose carried context holds
`some v` at `k` reads `some v` at `k`. -/
theorem okCtxCalls_get {T E V : Type} (p : ContextPipe T E V) (k : String)
    (v : V) (hctx : p.context k = some v) :
    ∀ c ∈ okCtxCalls p, c.get k = some v := by
  intro c hc
  cases hp : p.result with
  | Ok d =>
    simp [okCtxCalls, hp] at hc
    subst hc
    simpa [Context.get] using hctx
  | Error e =>
    simp [okCtxCalls, hp] at hc

/-- Chain invariant for context persistence: if the carried context holds
`some v` at `k` and every `setContext` link preserves `k`, then every
accessor passed along the chain reads `some v` at `k`, and so does the
final carried context. -/
theorem runCSteps_key_invariant {T E V : Type} (k : String) (v : V)
    (steps : List (CStep T E V)) (hpres : ∀ s ∈ steps, stepPreservesKey k s)
    (p : ContextPipe T E V) (hctx : p.context k = some v) :
    ctxAllHaveKey k v (runCSteps p steps).2 ∧
      (runCSteps p steps).1.context k = some v := by
  induction steps generalizing p with
  | nil =>
    refine ⟨?_, by simpa [runCSteps] using hctx⟩
    intro c hc
    simp [runCSteps] at hc
  | cons s rest ih =>
    have hs : stepPreservesKey k s := hpres s (by simp)
    have hrest : ∀ s' ∈ rest, stepPreservesKey k s' := fun s' hs' =>
      hpres s' (by simp [hs'])
    have hstep : (applyCStep p s).context k = some v := by
      cases s with
      | map fn =>
        cases hp : p.result <;> simp [applyCStep, ContextPipe.map, hp, hctx]
      | flatMap fn =>
        cases hp : p.result <;> simp [applyCStep, ContextPipe.flatMap, hp, hctx]
      | mapToResult fn =>
        cases hp : p.result <;>
          simp [applyCStep, ContextPipe.mapToResult, hp, hctx]
      | setContext fn =>
        cases hp : p.result with
        | Ok d =>
          have hkeep := hs d ⟨p.context⟩
          simp only [applyCStep, ContextPipe.setContext, hp, Context.getContext]
          simpa [Context.get, hctx] using hkeep
        | Error e =>
          simp [applyCStep, ContextPipe.setContext, hp, hctx]
    obtain ⟨ihall, ihfin⟩ := ih hrest (applyCStep p s) hstep
    refine ⟨?_, by simpa [runCSteps] using ihfin⟩
    intro c hc
    simp only [runCSteps, List.mem_append] at hc
    rcases hc with hc | hc
    · exact okCtxCalls_get p k v hctx c hc
    · exact ihall c hc

/-- C2: context persistence — after a `setContext` link on an `Ok` pipe
stores key `k` (with value `f0 data ctx`), that key reads the stored
value in the pipe's carried context, in every context accessor passed to
a later `map`/`flatMap`/`mapToResult`/`setContext` link, and in the final
carried context, provided the later `setContext` links preserve `k`
(e.g. set only other keys); moreover `Context.set` is exactly the
pointwise update — it never removes a key, and all other keys still read
from the prior context, which itself is left unchanged. -/
theorem setContext_persists {T E V : Type}
    (p : ContextPipe T E V) (d : T) (hp : p.result = .Ok d)
    (k : String) (f0 : T → Context V → V)
    (steps : List (CStep T E V)) (hpres : ∀ s ∈ steps, stepPreservesKey k s) :
    ((p.setContext fun x c => c.set k (f0 x c)).context k
        = some (f0 d ⟨p.context⟩)) ∧
      ctxAllHaveKey k (f0 d ⟨p.context⟩)
        (runCSteps (p.setContext fun x c => c.set k (f0 x c)) steps).2 ∧
      ((runCSteps (p.setContext fun x c => c.set k (f0 x c)) steps).1.context k
        = some (f0 d ⟨p.context⟩)) ∧
      (∀ (c : Context V) (k1 k2 : String) (w : V),
        (c.set k1 w).get k2 = if k2 = k1 then some w else c.get k2) := by
  have h1 : (p.setContext fun x c => c.set k (f0 x c)).context k
      = some (f0 d ⟨p.context⟩) := by
    simp [ContextPipe.setContext, hp, Context.set, Context.getContext]
  obtain ⟨h2, h3⟩ := runCSteps_key_invariant k (f0 d ⟨p.context⟩) steps hpres
    (p.setContext fun x c => c.set k (f0 x c)) h1
  exact ⟨h1, h2, h3, fun c k1 k2 w => by simp [Context.set, Context.get]⟩

/-- C2 witness: a concrete `Ok` pipe stores `"a" ↦ 2`, then runs a chain
that reads `"a"`, sets the unrelated key `"b"`, and chains a `flatMap`;
key `"a"` still reads `2` everywhere. -/
theorem setContext_persists_witness :
    (((⟨.Ok 2, fun _ => none⟩ : ContextPipe Nat Nat Nat).setContext
          fun x c => c.set "a" ((fun y (_ : Context Nat) => y) x c)).context "a"
        = some 2) ∧
      ctxAllHaveKey "a" 2
        (runCSteps ((⟨.Ok 2, fun _ => none⟩ : ContextPipe Nat Nat Nat).setContext
            fun x c => c.set "a" ((fun y (_ : Context Nat) => y) x c))
          persistSteps).2 ∧
      ((runCSteps ((⟨.Ok 2, fun _ => none⟩ : ContextPipe Nat Nat Nat).setContext
            fun x c => c.set "a" ((fun y (_ : Context Nat) => y) x c))
          persistSteps).1.context "a" = some 2) := by
  have hpres : ∀ s ∈ persistSteps, stepPreservesKey "a" s := by
    intro s hs
    simp [persistSteps] at hs
    rcases hs with rfl | rfl | rfl
    · trivial
    · intro x c
      simp only [Context.set, Context.get]
      rw [if_neg (by decide)]
    · trivial
  have h := setContext_persists (⟨.Ok 2, fun _ => none⟩ : ContextPipe Nat Nat Nat)
    2 rfl "a" (fun y (_ : Context Nat) => y) persistSteps hpres
  exact ⟨h.1, h.2.1, h.2.2.1⟩

/-- C3: `matchTag` dispatches to exactly the handler keyed by the value's
discriminant, applied once to the full tagged value: for any covering
handler family the result is that of `handlers t._tag` at `t`, and the
instrumented family whose handlers each log their `(key, argument)`
invocation produces the singleton trace `[(t._tag, t)]` — one handler,
invoked once, with the full value; no other key's handler runs. -/
theorem matchTag_dispatch {K V R : Type} (t : Tag K V)
    (handlers : K → Tag K V → R) :
    matchTag t handlers = handlers t._tag t ∧
      matchTag t (fun key tg => [(key, tg)]) = [(t._tag, t)] :=
  ⟨rfl, rfl⟩

/-- C7 counterexample: `tap` executes `return this`, so on a concrete
pipe it hands back the receiver itself — identity `0`, identical to the
receiver's — refuting the claim that every chain operation (including
`tap`) returns a new pipeline instance distinct from the receiver. -/
theorem tap_same_instance_counterexample :
    ((⟨0, .Ok 1⟩ : RefPipe Nat Nat).tap fun _ => ()) = ⟨0, .Ok 1⟩ :=
  rfl

/-- C7 amended: `map`, `flatMap`, `mapToResult`, `mapError`, `filter` and
`recover` return a pipeline instance distinct from the receiver, while
`tap` and `tapError` return the receiver itself; no operation mutates the
receiver — in particular `tap`/`tapError` leave the wrapped result as it
was. -/
theorem chain_ops_fresh_instance {T E R F : Type} (p : RefPipe T E)
    (f : T → R) (g : T → Result R E) (h : E → F) (q : T → Bool) (ev : E)
    (rc : E → T) (tf : T → Unit) (te : E → Unit) :
    (p.map f).pid ≠ p.pid ∧ (p.flatMap g).pid ≠ p.pid ∧
      (p.mapToResult f).pid ≠ p.pid ∧ (p.mapError h).pid ≠ p.pid ∧
      (p.filter q ev).pid ≠ p.pid ∧ (p.recover rc).pid ≠ p.pid ∧
      p.tap tf = p ∧ p.tapError te = p ∧
      (p.tap tf).result = p.result ∧ (p.tapError te).result = p.result := by
  refine ⟨?_, ?_, ?_, ?_, ?_, ?_, ?_, ?_, ?_, ?_⟩ <;>
    cases hp : p.result <;>
      simp [RefPipe.map, RefPipe.flatMap, RefPipe.mapToResult, RefPipe.mapError,
        RefPipe.filter, RefPipe.recover, RefPipe.tap, RefPipe.tapError, hp]

end BetterTypes
